import Mathlib

/-!
Verification of the AIForge RAG storage and streaming layer.

The definitions below are shallow embeddings of:
  - the SQL migration (documents / document_chunks tables, RLS policies,
    and the match_document_chunks similarity-search function),
  - the frontend chat page (simulateStreaming of app/chat/page.tsx),
  - the chat input component (handleSubmit of chat-input.tsx),
  - the SSE client parser (streamResponse of the API client).

Machine reals (pgvector floats) are modelled as real numbers; uuids and
timestamps as natural numbers; SQL NULL as Option.
-/

namespace AIForge

/-! ## Rows of the document_chunks table

One row of the document_chunks table (migration, section 3):
id uuid, document_id uuid REFERENCES documents(id) (nullable),
tenant_id uuid NOT NULL, content text NOT NULL, metadata jsonb,
embedding vector(1536) (nullable), created_at timestamptz.
The embedding type is a parameter V so that the search model can be
stated for an arbitrary distance operator and instantiated at the
pgvector cosine distance on real vectors. -/
structure ChunkRow (V : Type) where
  id : Nat
  documentId : Option Nat
  tenantId : Nat
  content : String
  embedding : Option V
  createdAt : Nat
deriving DecidableEq

/-- One output row of match_document_chunks: the selected chunk columns
together with the computed similarity.  (The SQL projection drops the
embedding and created_at columns; the model keeps the whole source row,
which only adds information.) -/
structure MatchRow (V : Type) (α : Type) where
  chunk : ChunkRow V
  similarity : α
deriving DecidableEq

/-- The document filter of match_document_chunks:
filter_document_ids IS NULL OR document_id = ANY(filter_document_ids).
A NULL document_id never matches ANY (SQL three-valued logic drops the
row), and a NULL filter accepts every row. -/
def docIdOk (filterDocumentIds : Option (List Nat)) (c : ChunkRow V) : Bool :=
  match filterDocumentIds with
  | none => true
  | some ids =>
    match c.documentId with
    | none => false
    | some d => decide (d ∈ ids)

/-- The WHERE clause plus SELECT of match_document_chunks, applied to the
table contents in row order: keep the rows with
tenant_id = filter_tenant_id, passing the document filter, and with
1 - (embedding <=> query_embedding) > match_threshold; attach that same
expression as the similarity column.  A NULL embedding makes the
comparison NULL, which WHERE drops. -/
def matchedRows [LinearOrderedField α] (dist : V → V → α) (chunks : List (ChunkRow V))
    (queryEmbedding : V) (matchThreshold : α) (filterTenantId : Nat)
    (filterDocumentIds : Option (List Nat)) : List (MatchRow V α) :=
  chunks.filterMap fun c =>
    match c.embedding with
    | none => none
    | some v =>
      if c.tenantId = filterTenantId ∧ docIdOk filterDocumentIds c = true ∧
          matchThreshold < 1 - dist v queryEmbedding
      then some ⟨c, 1 - dist v queryEmbedding⟩
      else none

/-- Descending order on the similarity column (ORDER BY similarity DESC). -/
def SimDesc (l : List (MatchRow V α)) [LE α] : Prop :=
  l.Pairwise fun a b => b.similarity ≤ a.similarity

/-- The full SQL query semantics of match_document_chunks:
ORDER BY similarity DESC followed by LIMIT match_count.  SQL leaves the
relative order of equal-similarity rows (and which of them survive the
limit) unspecified, so the result is any list obtained by sorting some
permutation of the matched rows in descending similarity order and
taking the first match_count of them. -/
def MatchResult [LinearOrderedField α] (dist : V → V → α) (chunks : List (ChunkRow V))
    (queryEmbedding : V) (matchThreshold : α) (matchCount : Nat) (filterTenantId : Nat)
    (filterDocumentIds : Option (List Nat)) (out : List (MatchRow V α)) : Prop :=
  ∃ l, (matchedRows dist chunks queryEmbedding matchThreshold filterTenantId
          filterDocumentIds).Perm l ∧ SimDesc l ∧ out = l.take matchCount

/-- Membership in the matched rows, unfolded. -/
theorem mem_matchedRows [LinearOrderedField α] {dist : V → V → α}
    {chunks : List (ChunkRow V)} {q : V} {th : α} {tenant : Nat}
    {f : Option (List Nat)} {r : MatchRow V α} :
    r ∈ matchedRows dist chunks q th tenant f ↔
      ∃ c ∈ chunks, ∃ v, c.embedding = some v ∧
        c.tenantId = tenant ∧ docIdOk f c = true ∧ th < 1 - dist v q ∧
        r = ⟨c, 1 - dist v q⟩ := by
  unfold matchedRows
  rw [List.mem_filterMap]
  constructor
  · rintro ⟨c, hc, hr⟩
    cases hv : c.embedding with
    | none => rw [hv] at hr; exact absurd hr (by simp)
    | some v =>
      rw [hv] at hr
      dsimp only at hr
      by_cases hcond : c.tenantId = tenant ∧ docIdOk f c = true ∧ th < 1 - dist v q
      · rw [if_pos hcond] at hr
        exact ⟨c, hc, v, hv, hcond.1, hcond.2.1, hcond.2.2, (Option.some_injective _ hr).symm⟩
      · rw [if_neg hcond] at hr; exact absurd hr (by simp)
  · rintro ⟨c, hc, v, hv, h1, h2, h3, hr⟩
    refine ⟨c, hc, ?_⟩
    rw [hv]
    dsimp only
    rw [if_pos ⟨h1, h2, h3⟩, hr]

/-- Every row of any valid output of the query comes from the matched rows. -/
theorem mem_of_matchResult [LinearOrderedField α] {dist : V → V → α}
    {chunks : List (ChunkRow V)} {q : V} {th : α} {cnt tenant : Nat}
    {f : Option (List Nat)} {out : List (MatchRow V α)}
    (h : MatchResult dist chunks q th cnt tenant f out) :
    ∀ r ∈ out, r ∈ matchedRows dist chunks q th tenant f := by
  rcases h with ⟨l, hperm, _, hout⟩
  intro r hr
  exact hperm.mem_iff.mpr (List.mem_of_mem_take (hout ▸ hr))

/-- C1: every similarity-search result row belongs to the queried tenant,
never to any other tenant, and when a document filter is supplied every
result row belongs to one of the listed documents; a null filter accepts
any document id. -/
theorem match_document_chunks_tenant_isolation [LinearOrderedField α]
    (dist : V → V → α) (chunks : List (ChunkRow V)) (q : V) (th : α)
    (cnt tenant : Nat) (f : Option (List Nat)) (out : List (MatchRow V α))
    (h : MatchResult dist chunks q th cnt tenant f out) :
    (∀ r ∈ out, r.chunk.tenantId = tenant) ∧
    (∀ t2, t2 ≠ tenant → ∀ r ∈ out, r.chunk.tenantId ≠ t2) ∧
    (∀ ids, f = some ids → ∀ r ∈ out, ∃ d, r.chunk.documentId = some d ∧ d ∈ ids) ∧
    (f = none → ∀ c : ChunkRow V, docIdOk f c = true) := by
  have hmem := mem_of_matchResult h
  refine ⟨?_, ?_, ?_, ?_⟩
  · intro r hr
    rcases mem_matchedRows.mp (hmem r hr) with ⟨c, _, v, _, h1, _, _, hrc⟩
    rw [hrc]; exact h1
  · intro t2 ht2 r hr
    rcases mem_matchedRows.mp (hmem r hr) with ⟨c, _, v, _, h1, _, _, hrc⟩
    rw [hrc]; simpa [h1] using ht2.symm
  · intro ids hids r hr
    rcases mem_matchedRows.mp (hmem r hr) with ⟨c, _, v, _, _, h2, _, hrc⟩
    rw [hids] at h2
    unfold docIdOk at h2
    cases hd : c.documentId with
    | none => rw [hd] at h2; exact absurd h2 (by simp)
    | some d =>
      rw [hd] at h2
      exact ⟨d, by rw [hrc]; exact hd, by simpa using h2⟩
  · intro hf c
    rw [hf]; rfl

/-- C2: the query returns at most match_count rows, every returned row's
similarity is strictly above the threshold (rows at or below the floor
are excluded, not demoted), and when fewer rows clear the floor than
match_count the output has exactly that smaller number of rows. -/
theorem match_document_chunks_threshold_and_limit [LinearOrderedField α]
    (dist : V → V → α) (chunks : List (ChunkRow V)) (q : V) (th : α)
    (cnt tenant : Nat) (f : Option (List Nat)) (out : List (MatchRow V α))
    (h : MatchResult dist chunks q th cnt tenant f out) :
    out.length ≤ cnt ∧
    (∀ r ∈ out, th < r.similarity) ∧
    ((matchedRows dist chunks q th tenant f).length < cnt →
      out.length = (matchedRows dist chunks q th tenant f).length) := by
  obtain ⟨l, hperm, _, hout⟩ := h
  have hlen : l.length = (matchedRows dist chunks q th tenant f).length :=
    hperm.length_eq.symm
  refine ⟨?_, ?_, ?_⟩
  · rw [hout]; exact (List.length_take cnt l).le.trans (min_le_left _ _)
  · intro r hr
    rcases mem_matchedRows.mp
        (mem_of_matchResult ⟨l, hperm, by assumption, hout⟩ r hr) with
      ⟨c, _, v, _, _, _, h3, hrc⟩
    rw [hrc]; exact h3
  · intro hlt
    rw [hout, List.length_take, hlen]
    exact min_eq_right (le_of_lt hlt)

/-- C3 (amended): any valid output of match_document_chunks is sorted in
descending order of similarity.  (The SQL orders by similarity only; it
does not order ties by creation timestamp.) -/
theorem match_document_chunks_sorted_desc [LinearOrderedField α]
    (dist : V → V → α) (chunks : List (ChunkRow V)) (q : V) (th : α)
    (cnt tenant : Nat) (f : Option (List Nat)) (out : List (MatchRow V α))
    (h : MatchResult dist chunks q th cnt tenant f out) : SimDesc out := by
  obtain ⟨l, _, hsorted, hout⟩ := h
  rw [hout]
  exact hsorted.sublist (List.take_sublist cnt l)

/-! ## The pgvector cosine distance operator

The embedding column is vector(1536) and the similarity index uses
vector_cosine_ops, so the <=> operator of match_document_chunks is the
cosine distance: 1 - dot(u, v) / (l2norm u * l2norm v). -/

/-- Dot product of two vectors, pairwise over the common length. -/
def dotp : List ℝ → List ℝ → ℝ
  | [], _ => 0
  | _, [] => 0
  | a :: u, b :: v => a * b + dotp u v

/-- Sum of squares of a vector's components. -/
def sumSq : List ℝ → ℝ
  | [] => 0
  | a :: u => a ^ 2 + sumSq u

/-- Euclidean norm of a vector. -/
noncomputable def l2norm (u : List ℝ) : ℝ := Real.sqrt (sumSq u)

/-- Cosine distance, the meaning of the <=> operator under
vector_cosine_ops. -/
noncomputable def cosineDistance (u v : List ℝ) : ℝ :=
  1 - dotp u v / (l2norm u * l2norm v)

/-- The embedding-dimension fixed by the schema (vector(1536), matching
the 1536-dimensional embedding model named in the migration comments). -/
def embeddingDim : Nat := 1536

theorem sumSq_nonneg (u : List ℝ) : 0 ≤ sumSq u := by
  induction u with
  | nil => simp [sumSq]
  | cons a u ih => unfold sumSq; positivity

/-- Cauchy-Schwarz for the list dot product, squared form. -/
theorem dotp_sq_le (u v : List ℝ) : (dotp u v) ^ 2 ≤ sumSq u * sumSq v := by
  induction u generalizing v with
  | nil => simpa [dotp] using mul_nonneg (sumSq_nonneg []) (sumSq_nonneg v)
  | cons a u ih =>
    cases v with
    | nil =>
      simpa [dotp] using mul_nonneg (sumSq_nonneg (a :: u)) (sumSq_nonneg [])
    | cons b v =>
      have hA := sumSq_nonneg u
      have hB := sumSq_nonneg v
      have hS := ih v
      show (a * b + dotp u v) ^ 2 ≤ (a ^ 2 + sumSq u) * (b ^ 2 + sumSq v)
      rcases eq_or_lt_of_le hB with h0 | hpos
      · have hzero : dotp u v = 0 := by
          have h1 : (dotp u v) ^ 2 ≤ 0 := by nlinarith
          have h2 : (dotp u v) ^ 2 = 0 := le_antisymm h1 (sq_nonneg _)
          exact pow_eq_zero_iff (n := 2) (by norm_num) |>.mp h2
        rw [hzero]
        nlinarith [sq_nonneg a, sq_nonneg b, mul_nonneg hA (sq_nonneg b)]
      · nlinarith [sq_nonneg (a * sumSq v - b * dotp u v),
          mul_nonneg (sq_nonneg b) (sub_nonneg.2 hS),
          mul_nonneg hB (sub_nonneg.2 hS)]

theorem l2norm_nonneg (u : List ℝ) : 0 ≤ l2norm u := Real.sqrt_nonneg _

/-- Cauchy-Schwarz in norm form: the absolute dot product is at most the
product of the norms. -/
theorem abs_dotp_le (u v : List ℝ) : -(l2norm u * l2norm v) ≤ dotp u v ∧
    dotp u v ≤ l2norm u * l2norm v := by
  have hsq : (dotp u v) ^ 2 ≤ (l2norm u * l2norm v) ^ 2 := by
    have : (l2norm u * l2norm v) ^ 2 = sumSq u * sumSq v := by
      rw [mul_pow]
      unfold l2norm
      rw [Real.sq_sqrt (sumSq_nonneg u), Real.sq_sqrt (sumSq_nonneg v)]
    rw [this]
    exact dotp_sq_le u v
  exact abs_le_of_sq_le_sq' hsq (mul_nonneg (l2norm_nonneg u) (l2norm_nonneg v))

/-- C4 (amended): every similarity score returned by
match_document_chunks equals one minus the cosine distance between the
stored embedding and the query vector, and whenever both vectors are
nonzero (normalized embeddings included) the score lies in [-1, 1].
(It is not confined to [0, 1] for normalized embeddings; see the
counterexample.) -/
theorem match_document_chunks_similarity_cosine
    (chunks : List (ChunkRow (List ℝ))) (q : List ℝ) (th : ℝ)
    (cnt tenant : Nat) (f : Option (List Nat)) (out : List (MatchRow (List ℝ) ℝ))
    (h : MatchResult cosineDistance chunks q th cnt tenant f out) :
    ∀ r ∈ out, ∃ v, r.chunk.embedding = some v ∧
      r.similarity = 1 - cosineDistance v q ∧
      (l2norm v ≠ 0 → l2norm q ≠ 0 →
        -1 ≤ r.similarity ∧ r.similarity ≤ 1) := by
  intro r hr
  rcases mem_matchedRows.mp (mem_of_matchResult h r hr) with
    ⟨c, _, v, hv, _, _, _, hrc⟩
  refine ⟨v, by rw [hrc]; exact hv, by rw [hrc], ?_⟩
  intro hnv hnq
  have hsim : r.similarity = dotp v q / (l2norm v * l2norm q) := by
    rw [hrc]
    show 1 - cosineDistance v q = _
    unfold cosineDistance
    ring
  have hpos : 0 < l2norm v * l2norm q := by
    rcases lt_or_eq_of_le (l2norm_nonneg v) with h1 | h1
    · rcases lt_or_eq_of_le (l2norm_nonneg q) with h2 | h2
      · exact mul_pos h1 h2
      · exact absurd h2.symm hnq
    · exact absurd h1.symm hnv
  obtain ⟨hlo, hhi⟩ := abs_dotp_le v q
  constructor
  · rw [hsim, le_div_iff₀ hpos]; linarith
  · rw [hsim, div_le_one hpos]; exact hhi

/-! ## Concrete vectors and table contents used to instantiate the
search theorems -/

/-- The first standard basis vector in the schema dimension: a unit
(normalized) embedding. -/
def unitVec : List ℝ := 1 :: List.replicate (embeddingDim - 1) 0

/-- The negated first basis vector: also normalized. -/
def negUnitVec : List ℝ := (-1) :: List.replicate (embeddingDim - 1) 0

theorem sumSq_replicate_zero (n : Nat) : sumSq (List.replicate n 0) = 0 := by
  induction n with
  | zero => rfl
  | succ n ih => simp [List.replicate_succ, sumSq, ih]

theorem dotp_replicate_zero (n : Nat) (w : List ℝ) :
    dotp (List.replicate n 0) w = 0 := by
  induction n generalizing w with
  | zero => cases w <;> rfl
  | succ n ih =>
    cases w with
    | nil => rfl
    | cons b w => simp [List.replicate_succ, dotp, ih]

theorem l2norm_unitVec : l2norm unitVec = 1 := by
  unfold l2norm unitVec sumSq
  rw [sumSq_replicate_zero]
  norm_num

theorem l2norm_negUnitVec : l2norm negUnitVec = 1 := by
  unfold l2norm negUnitVec sumSq
  rw [sumSq_replicate_zero]
  norm_num

theorem dotp_unit_unit : dotp unitVec unitVec = 1 := by
  unfold unitVec dotp
  rw [dotp_replicate_zero]
  norm_num

theorem dotp_negUnit_unit : dotp negUnitVec unitVec = -1 := by
  unfold negUnitVec unitVec dotp
  rw [dotp_replicate_zero]
  norm_num

theorem cosineDistance_unit_unit : cosineDistance unitVec unitVec = 0 := by
  unfold cosineDistance
  rw [dotp_unit_unit, l2norm_unitVec]
  norm_num

theorem cosineDistance_negUnit_unit : cosineDistance negUnitVec unitVec = 2 := by
  unfold cosineDistance
  rw [dotp_negUnit_unit, l2norm_negUnitVec, l2norm_unitVec]
  norm_num

/-- Two chunks of the same tenant with identical embeddings (hence tied
similarity) whose creation timestamps are out of table order: the later
created row sits first in the table. -/
def tieChunkLate : ChunkRow (List ℝ) := ⟨1, some 1, 0, "a", some unitVec, 5⟩

/-- The earlier-created of the two tied chunks. -/
def tieChunkEarly : ChunkRow (List ℝ) := ⟨2, some 1, 0, "b", some unitVec, 3⟩

theorem matchedRows_tie_eval :
    matchedRows cosineDistance [tieChunkLate, tieChunkEarly] unitVec (1/2 : ℝ) 0 none
      = [⟨tieChunkLate, 1⟩, ⟨tieChunkEarly, 1⟩] := by
  norm_num [matchedRows, List.filterMap_cons, docIdOk, cosineDistance_unit_unit,
    tieChunkLate, tieChunkEarly]

/-- The tied two-row output, with the later-created chunk first, is a
valid execution of the query. -/
theorem matchResult_tie :
    MatchResult cosineDistance [tieChunkLate, tieChunkEarly] unitVec (1/2 : ℝ) 2 0 none
      [⟨tieChunkLate, 1⟩, ⟨tieChunkEarly, 1⟩] := by
  refine ⟨[⟨tieChunkLate, 1⟩, ⟨tieChunkEarly, 1⟩], ?_, ?_, rfl⟩
  · rw [matchedRows_tie_eval]
  · simp [SimDesc]

/-- C3 counterexample: it is not true that equal-similarity rows are
returned with the earlier-created chunk first.  The SQL orders by
similarity only, so an execution may return a later-created chunk ahead
of an earlier-created one at the same similarity. -/
theorem match_document_chunks_tiebreak_counterexample :
    ¬ (∀ (chunks : List (ChunkRow (List ℝ))) (q : List ℝ) (th : ℝ)
        (cnt tenant : Nat) (f : Option (List Nat)) (out : List (MatchRow (List ℝ) ℝ)),
        MatchResult cosineDistance chunks q th cnt tenant f out →
        out.Pairwise fun a b => a.similarity = b.similarity →
          a.chunk.createdAt ≤ b.chunk.createdAt) := by
  intro hclaim
  have hpw := hclaim _ _ _ _ _ _ _ matchResult_tie
  have hrel := List.rel_of_pairwise_cons hpw (List.mem_singleton_self _)
  have h53 : (5 : Nat) ≤ 3 := hrel rfl
  omega

/-- A normalized embedding pointing opposite to the (normalized) query. -/
def negChunk : ChunkRow (List ℝ) := ⟨7, none, 0, "n", some negUnitVec, 0⟩

theorem matchedRows_neg_eval :
    matchedRows cosineDistance [negChunk] unitVec (-2 : ℝ) 0 none
      = [⟨negChunk, -1⟩] := by
  norm_num [matchedRows, List.filterMap_cons, docIdOk, cosineDistance_negUnit_unit,
    negChunk]

/-- C4 counterexample: a search over normalized embeddings with a
normalized query can return a similarity of -1, which is not in [0, 1];
the score is only bounded by [-1, 1]. -/
theorem match_document_chunks_similarity_range_counterexample :
    ∃ (chunks : List (ChunkRow (List ℝ))) (q : List ℝ) (th : ℝ)
      (cnt tenant : Nat) (out : List (MatchRow (List ℝ) ℝ)),
      MatchResult cosineDistance chunks q th cnt tenant none out ∧
      (∀ c ∈ chunks, ∃ v, c.embedding = some v ∧ l2norm v = 1) ∧
      l2norm q = 1 ∧
      ∃ r ∈ out, r.similarity < 0 := by
  refine ⟨[negChunk], unitVec, -2, 1, 0, [⟨negChunk, -1⟩], ?_, ?_, l2norm_unitVec, ?_⟩
  · exact ⟨[⟨negChunk, -1⟩], by rw [matchedRows_neg_eval], by simp [SimDesc], rfl⟩
  · intro c hc
    rw [List.mem_singleton] at hc
    exact ⟨negUnitVec, by rw [hc]; rfl, l2norm_negUnitVec⟩
  · exact ⟨⟨negChunk, -1⟩, List.mem_singleton_self _, by norm_num⟩

/-- A chunk whose embedding equals the query vector. -/
def unitChunk : ChunkRow (List ℝ) := ⟨3, none, 0, "c", some unitVec, 0⟩

theorem matchedRows_unit_eval :
    matchedRows cosineDistance [unitChunk] unitVec (1/2 : ℝ) 0 none
      = [⟨unitChunk, 1⟩] := by
  norm_num [matchedRows, List.filterMap_cons, docIdOk, cosineDistance_unit_unit,
    unitChunk]

/-- A concrete single-row execution of the query at the cosine distance. -/
theorem matchResult_unit :
    MatchResult cosineDistance [unitChunk] unitVec (1/2 : ℝ) 1 0 none
      [⟨unitChunk, 1⟩] :=
  ⟨[⟨unitChunk, 1⟩], by rw [matchedRows_unit_eval], by simp [SimDesc], rfl⟩

/-- Witness for C4: the cosine similarity statement applied to a
concrete one-row search. -/
theorem match_document_chunks_similarity_cosine_witness :
    MatchResult cosineDistance [unitChunk] unitVec (1/2 : ℝ) 1 0 none
      [⟨unitChunk, 1⟩] ∧
    (∃ v, (⟨unitChunk, 1⟩ : MatchRow (List ℝ) ℝ).chunk.embedding = some v ∧
      (⟨unitChunk, 1⟩ : MatchRow (List ℝ) ℝ).similarity = 1 - cosineDistance v unitVec ∧
      (l2norm v ≠ 0 → l2norm unitVec ≠ 0 →
        -1 ≤ (⟨unitChunk, 1⟩ : MatchRow (List ℝ) ℝ).similarity ∧
        (⟨unitChunk, 1⟩ : MatchRow (List ℝ) ℝ).similarity ≤ 1)) :=
  ⟨matchResult_unit,
    match_document_chunks_similarity_cosine _ _ _ _ _ _ _ matchResult_unit
      ⟨unitChunk, 1⟩ (List.mem_singleton_self _)⟩

/-! ## Concrete rational-scored instances for the generic search theorems -/

/-- A toy distance on rational embeddings, used to instantiate the
distance-generic theorems. -/
def distQ : ℚ → ℚ → ℚ := fun a b => |a - b|

/-- A chunk of tenant 0 inside document 4. -/
def exChunkQ : ChunkRow ℚ := ⟨1, some 4, 0, "q", some 0, 0⟩

/-- A chunk of a different tenant (7), present in the same table. -/
def exOtherQ : ChunkRow ℚ := ⟨2, some 4, 7, "r", some 0, 0⟩

theorem matchedRows_exQ_eval :
    matchedRows distQ [exChunkQ, exOtherQ] 0 (1/2 : ℚ) 0 (some [4])
      = [⟨exChunkQ, 1⟩] := by
  norm_num [matchedRows, List.filterMap_cons, docIdOk, distQ, exChunkQ, exOtherQ]

/-- A concrete execution of the query over the rational toy distance. -/
theorem matchResult_exQ :
    MatchResult distQ [exChunkQ, exOtherQ] 0 (1/2 : ℚ) 5 0 (some [4])
      [⟨exChunkQ, 1⟩] :=
  ⟨[⟨exChunkQ, 1⟩], by rw [matchedRows_exQ_eval], by simp [SimDesc], rfl⟩

/-- Witness for C1: tenant isolation applied to a concrete search whose
table also holds another tenant's chunk. -/
theorem match_document_chunks_tenant_isolation_witness :
    MatchResult distQ [exChunkQ, exOtherQ] 0 (1/2 : ℚ) 5 0 (some [4])
      [⟨exChunkQ, 1⟩] ∧
    ((∀ r ∈ [(⟨exChunkQ, 1⟩ : MatchRow ℚ ℚ)], r.chunk.tenantId = 0) ∧
     (∀ t2, t2 ≠ 0 → ∀ r ∈ [(⟨exChunkQ, 1⟩ : MatchRow ℚ ℚ)], r.chunk.tenantId ≠ t2) ∧
     (∀ ids, (some [4] : Option (List Nat)) = some ids →
        ∀ r ∈ [(⟨exChunkQ, 1⟩ : MatchRow ℚ ℚ)],
          ∃ d, r.chunk.documentId = some d ∧ d ∈ ids) ∧
     ((some [4] : Option (List Nat)) = none →
        ∀ c : ChunkRow ℚ, docIdOk (some [4]) c = true)) :=
  ⟨matchResult_exQ,
    match_document_chunks_tenant_isolation _ _ _ _ _ _ _ _ matchResult_exQ⟩

/-- Witness for C2: the threshold and limit statement applied to the same
concrete search. -/
theorem match_document_chunks_threshold_and_limit_witness :
    MatchResult distQ [exChunkQ, exOtherQ] 0 (1/2 : ℚ) 5 0 (some [4])
      [⟨exChunkQ, 1⟩] ∧
    ([(⟨exChunkQ, 1⟩ : MatchRow ℚ ℚ)].length ≤ 5 ∧
     (∀ r ∈ [(⟨exChunkQ, 1⟩ : MatchRow ℚ ℚ)], (1/2 : ℚ) < r.similarity) ∧
     ((matchedRows distQ [exChunkQ, exOtherQ] 0 (1/2 : ℚ) 0 (some [4])).length < 5 →
       [(⟨exChunkQ, 1⟩ : MatchRow ℚ ℚ)].length =
         (matchedRows distQ [exChunkQ, exOtherQ] 0 (1/2 : ℚ) 0 (some [4])).length)) :=
  ⟨matchResult_exQ,
    match_document_chunks_threshold_and_limit _ _ _ _ _ _ _ _ matchResult_exQ⟩

/-- Witness for C3 (amended): descending sortedness applied to the same
concrete search. -/
theorem match_document_chunks_sorted_desc_witness :
    MatchResult distQ [exChunkQ, exOtherQ] 0 (1/2 : ℚ) 5 0 (some [4])
      [⟨exChunkQ, 1⟩] ∧
    SimDesc [(⟨exChunkQ, 1⟩ : MatchRow ℚ ℚ)] :=
  ⟨matchResult_exQ,
    match_document_chunks_sorted_desc _ _ _ _ _ _ _ _ matchResult_exQ⟩

/-! ## The documents table and the RLS-governed storage operations

One row of the documents table (migration, section 2): id uuid,
tenant_id uuid NOT NULL, name text NOT NULL, source, metadata,
created_at. -/
structure DocRow where
  id : Nat
  tenantId : Nat
  name : String
  createdAt : Nat
deriving DecidableEq

/-- The persisted store: the contents of the documents and
document_chunks tables.  Chunk embeddings are rational vectors so that
concrete states stay decidable. -/
structure StoreState where
  documents : List DocRow
  chunks : List (ChunkRow (List ℚ))
deriving DecidableEq

/-- The store with both tables empty. -/
def StoreState.empty : StoreState := ⟨[], []⟩

/-- INSERT INTO documents as authenticated user u.  The RLS insert
policy has WITH CHECK (auth.uid() = tenant_id); the primary key requires
a fresh id.  A violated check makes the statement fail, modelled as
none (no state change). -/
def insertDocument (u : Nat) (d : DocRow) (st : StoreState) : Option StoreState :=
  if u = d.tenantId ∧ (∀ d0 ∈ st.documents, d0.id ≠ d.id)
  then some ⟨st.documents ++ [d], st.chunks⟩
  else none

/-- The vector(1536) typmod: a NULL embedding is storable (the column is
nullable), a non-null embedding must have exactly 1536 components. -/
def embeddingDimOk (c : ChunkRow (List ℚ)) : Bool :=
  match c.embedding with
  | none => true
  | some v => decide (v.length = embeddingDim)

/-- The document_chunks foreign key: a non-null document_id must name an
existing documents row.  Foreign keys are checked against the whole
table, not only the rows visible through RLS. -/
def fkOk (c : ChunkRow (List ℚ)) (st : StoreState) : Bool :=
  match c.documentId with
  | none => true
  | some did => decide (∃ d ∈ st.documents, d.id = did)

/-- INSERT INTO document_chunks as user u.  The checks the database
applies: the RLS insert policy WITH CHECK (auth.uid() = tenant_id), the
primary key, the vector(1536) dimensionality, and the foreign key.
Failing any check fails the insert (none, state unchanged).  Note the
policy compares the chunk's own tenant_id with auth.uid() only; no check
relates it to the referenced document's tenant_id. -/
def insertChunk (u : Nat) (c : ChunkRow (List ℚ)) (st : StoreState) : Option StoreState :=
  if u = c.tenantId ∧ (∀ c0 ∈ st.chunks, c0.id ≠ c.id) ∧
      embeddingDimOk c = true ∧ fkOk c st = true
  then some ⟨st.documents, st.chunks ++ [c]⟩
  else none

/-- DELETE FROM documents WHERE id = docId, issued by user u.  The RLS
delete policy USING (auth.uid() = tenant_id) restricts the statement to
the user's own rows; rows of other tenants are simply invisible, so the
statement affects zero rows instead of failing.  ON DELETE CASCADE then
removes every chunk referencing a deleted document.  Returns the new
state together with the number of document rows affected; the statement
itself never raises an authorization error. -/
def isDeleteTarget (u docId : Nat) (d : DocRow) : Bool :=
  decide (d.id = docId ∧ d.tenantId = u)

/-- A chunk survives the cascade when its document_id (if any) is not
among the deleted document ids. -/
def chunkSurvives (deletedIds : List Nat) (c : ChunkRow (List ℚ)) : Bool :=
  match c.documentId with
  | none => true
  | some did => !(deletedIds.contains did)

def deleteDocument (u : Nat) (docId : Nat) (st : StoreState) : StoreState × Nat :=
  let deleted := st.documents.filter (isDeleteTarget u docId)
  ⟨⟨st.documents.filter fun d => !(isDeleteTarget u docId d),
    st.chunks.filter (chunkSurvives (deleted.map DocRow.id))⟩,
   deleted.length⟩

/-- A chunk with no document reference survives any cascade. -/
theorem chunkSurvives_nil (c : ChunkRow (List ℚ)) : chunkSurvives [] c = true := by
  unfold chunkSurvives
  cases c.documentId <;> simp

/-- A nonempty Nodup list all of whose members equal a is exactly [a]. -/
theorem eq_singleton_of_unique_mem {α : Type} {l : List α} {a : α}
    (h1 : a ∈ l) (h2 : ∀ b ∈ l, b = a) (h3 : l.Nodup) : l = [a] := by
  rcases l with _ | ⟨x, xs⟩
  · simp at h1
  · have hx : x = a := h2 x (by simp)
    subst hx
    rcases xs with _ | ⟨y, ys⟩
    · rfl
    · have hy : y = x := h2 y (by simp)
      subst hy
      simp at h3

/-- A delete whose target row is not RLS-visible (or absent) changes
nothing and affects zero rows, raising no error. -/
theorem deleteDocument_noop (u docId : Nat) (st : StoreState)
    (h : ∀ d ∈ st.documents, isDeleteTarget u docId d = false) :
    deleteDocument u docId st = (st, 0) := by
  have hfil : st.documents.filter (isDeleteTarget u docId) = [] :=
    List.filter_eq_nil_iff.mpr fun a ha => by simp [h a ha]
  have hkeep : (st.documents.filter fun d => !(isDeleteTarget u docId d))
      = st.documents :=
    List.filter_eq_self.mpr fun a ha => by simp [h a ha]
  have hchunks : st.chunks.filter (chunkSurvives []) = st.chunks :=
    List.filter_eq_self.mpr fun c _ => chunkSurvives_nil c
  simp only [deleteDocument, hfil, hkeep, List.map_nil, hchunks, List.length_nil]

/-- C5 (amended): deleting a document as its owner cascades, removing
the document row and every chunk referencing it, affecting one row;
deleting an absent id is a silent no-op success; and deleting a document
owned by a different tenant is equally a silent no-op success affecting
zero rows — the RLS policy hides the row, no authorization or not-found
error is raised, and the outcome is indistinguishable from the absent
case. -/
theorem delete_document_semantics (u docId : Nat) (st : StoreState) :
    ((∃ d ∈ st.documents, d.id = docId ∧ d.tenantId = u) →
      (st.documents.map DocRow.id).Nodup →
      (∀ d ∈ (deleteDocument u docId st).1.documents, d.id ≠ docId) ∧
      (∀ c ∈ (deleteDocument u docId st).1.chunks, c.documentId ≠ some docId) ∧
      (deleteDocument u docId st).2 = 1) ∧
    ((∀ d ∈ st.documents, d.id ≠ docId) →
      (deleteDocument u docId st).1 = st ∧ (deleteDocument u docId st).2 = 0) ∧
    ((∀ d ∈ st.documents, d.id = docId → d.tenantId ≠ u) →
      (deleteDocument u docId st).1 = st ∧ (deleteDocument u docId st).2 = 0) := by
  refine ⟨?_, ?_, ?_⟩
  · rintro ⟨d, hd, hid, hten⟩ hnodup
    have htarget : isDeleteTarget u docId d = true := by
      simp [isDeleteTarget, hid, hten]
    have hinj := List.inj_on_of_nodup_map hnodup
    have hfil : st.documents.filter (isDeleteTarget u docId) = [d] := by
      refine eq_singleton_of_unique_mem (List.mem_filter.mpr ⟨hd, htarget⟩) ?_
        ((List.Nodup.of_map DocRow.id hnodup).filter _)
      intro x hx
      have hmx := List.mem_filter.mp hx
      have hxid : x.id = docId := by
        have hb := hmx.2
        simp [isDeleteTarget] at hb
        exact hb.1
      exact hinj hmx.1 hd (by rw [hxid, hid])
    refine ⟨?_, ?_, ?_⟩
    · intro d0 hd0 hid0
      simp only [deleteDocument] at hd0
      have hmem := List.mem_filter.mp hd0
      have hd0d : d0 = d := hinj hmem.1 hd (by rw [hid0, hid])
      rw [hd0d] at hmem
      rw [htarget] at hmem
      simp at hmem
    · intro c hc hdoc
      simp only [deleteDocument] at hc
      have hmem := List.mem_filter.mp hc
      have hsurv := hmem.2
      unfold chunkSurvives at hsurv
      rw [hdoc, hfil] at hsurv
      simp [hid] at hsurv
    · simp only [deleteDocument, hfil, List.length_singleton]
  · intro hb
    have hnone : ∀ d ∈ st.documents, isDeleteTarget u docId d = false := by
      intro d0 hd0
      simp only [isDeleteTarget, decide_eq_false_iff_not]
      rintro ⟨hid0, -⟩
      exact hb d0 hd0 hid0
    rw [deleteDocument_noop u docId st hnone]
    exact ⟨rfl, rfl⟩
  · intro hc
    have hnone : ∀ d ∈ st.documents, isDeleteTarget u docId d = false := by
      intro d0 hd0
      simp only [isDeleteTarget, decide_eq_false_iff_not]
      rintro ⟨hid0, hten0⟩
      exact hc d0 hd0 hid0 hten0
    rw [deleteDocument_noop u docId st hnone]
    exact ⟨rfl, rfl⟩

/-- A document owned by tenant 0. -/
def foreignDoc : DocRow := ⟨10, 0, "d", 0⟩

/-- A store holding only tenant 0's document. -/
def foreignSt : StoreState := ⟨[foreignDoc], []⟩

/-- C5 counterexample: it is not true that a delete issued by a
different tenant fails (that is, refuses to be a silent no-op).  User 1
deleting tenant 0's document 10 succeeds, changes nothing and reports
zero affected rows, exactly the silently-doing-nothing outcome the claim
rules out. -/
theorem delete_document_cross_tenant_counterexample :
    ¬ (∀ (u docId : Nat) (st : StoreState),
        (∃ d ∈ st.documents, d.id = docId ∧ d.tenantId ≠ u) →
        ¬ ((deleteDocument u docId st).1 = st ∧ (deleteDocument u docId st).2 = 0)) := by
  intro h
  exact h 1 10 foreignSt (by decide) (by decide)

/-- A document owned by tenant 2, with one chunk, for the delete
cascade witness. -/
def ownDoc : DocRow := ⟨20, 2, "m", 0⟩

/-- A chunk of tenant 2 referencing ownDoc. -/
def ownChunk : ChunkRow (List ℚ) := ⟨21, some 20, 2, "cc", none, 0⟩

/-- The store holding ownDoc with its chunk. -/
def ownSt : StoreState := ⟨[ownDoc], [ownChunk]⟩

/-- Witness for C5: the delete semantics applied to an owner delete on a
concrete store with one document and one chunk. -/
theorem delete_document_semantics_witness :
    (∃ d ∈ ownSt.documents, d.id = 20 ∧ d.tenantId = 2) ∧
    (ownSt.documents.map DocRow.id).Nodup ∧
    ((∀ d ∈ (deleteDocument 2 20 ownSt).1.documents, d.id ≠ 20) ∧
     (∀ c ∈ (deleteDocument 2 20 ownSt).1.chunks, c.documentId ≠ some 20) ∧
     (deleteDocument 2 20 ownSt).2 = 1) :=
  ⟨by decide, by decide,
    (delete_document_semantics 2 20 ownSt).1 (by decide) (by decide)⟩

/-- The write operations available against the store, each tagged with
the authenticated user issuing it. -/
inductive StoreOp where
  | insertDoc (u : Nat) (d : DocRow)
  | insertChk (u : Nat) (c : ChunkRow (List ℚ))
  | deleteDoc (u : Nat) (docId : Nat)

/-- Apply one operation; a failed insert leaves the state unchanged. -/
def applyOp (st : StoreState) : StoreOp → StoreState
  | .insertDoc u d => (insertDocument u d st).getD st
  | .insertChk u c => (insertChunk u c st).getD st
  | .deleteDoc u i => (deleteDocument u i st).1

/-- The store state reached by a sequence of operations from the empty
store: the reachable states of the storage layer. -/
def runOps (ops : List StoreOp) : StoreState := ops.foldl applyOp StoreState.empty

/-- Dimension invariant: every stored (non-null) embedding has exactly
the schema dimensionality. -/
def DimInv (st : StoreState) : Prop :=
  ∀ c ∈ st.chunks, ∀ v, c.embedding = some v → v.length = embeddingDim

theorem dimInv_applyOp {st : StoreState} (h : DimInv st) (op : StoreOp) :
    DimInv (applyOp st op) := by
  cases op with
  | insertDoc u d =>
    simp only [applyOp, insertDocument]
    split
    · simp only [Option.getD_some]
      intro c hc
      exact h c hc
    · simpa using h
  | insertChk u c =>
    simp only [applyOp, insertChunk]
    split
    · rename_i hcond
      simp only [Option.getD_some]
      intro c0 hc0 v hv
      rcases List.mem_append.mp hc0 with hmem | hmem
      · exact h c0 hmem v hv
      · rw [List.mem_singleton] at hmem
        subst hmem
        have hdim := hcond.2.2.1
        unfold embeddingDimOk at hdim
        rw [hv] at hdim
        simpa using hdim
    · simpa using h
  | deleteDoc u i =>
    simp only [applyOp, deleteDocument]
    intro c hc
    exact h c (List.mem_filter.mp hc).1

theorem dimInv_foldl {st : StoreState} (h : DimInv st) (ops : List StoreOp) :
    DimInv (ops.foldl applyOp st) := by
  induction ops generalizing st with
  | nil => exact h
  | cons op ops ih => exact ih (dimInv_applyOp h op)

/-- C7: a chunk whose non-null embedding does not have exactly 1536
components is rejected at insert (hard error, nothing stored), a
successful insert implies the dimensionality is 1536, and consequently
in every reachable store state every stored embedding has exactly 1536
components. -/
theorem chunk_embedding_dimension :
    (∀ (u : Nat) (c : ChunkRow (List ℚ)) (st : StoreState) (v : List ℚ),
      c.embedding = some v → v.length ≠ embeddingDim → insertChunk u c st = none) ∧
    (∀ (u : Nat) (c : ChunkRow (List ℚ)) (st st' : StoreState),
      insertChunk u c st = some st' → ∀ v, c.embedding = some v →
        v.length = embeddingDim) ∧
    (∀ ops, ∀ c ∈ (runOps ops).chunks, ∀ v, c.embedding = some v →
      v.length = embeddingDim) := by
  refine ⟨?_, ?_, ?_⟩
  · intro u c st v hv hlen
    unfold insertChunk
    rw [if_neg]
    intro hcond
    have hdim := hcond.2.2.1
    unfold embeddingDimOk at hdim
    rw [hv] at hdim
    exact hlen (by simpa using hdim)
  · intro u c st st' hins v hv
    unfold insertChunk at hins
    by_cases hcond : u = c.tenantId ∧ (∀ c0 ∈ st.chunks, c0.id ≠ c.id) ∧
        embeddingDimOk c = true ∧ fkOk c st = true
    · have hdim := hcond.2.2.1
      unfold embeddingDimOk at hdim
      rw [hv] at hdim
      simpa using hdim
    · rw [if_neg hcond] at hins
      exact absurd hins (by simp)
  · intro ops
    exact dimInv_foldl (fun c hc => by simp [StoreState.empty] at hc) ops

/-- C8 (amended): the chunk insert policy checks only that the inserted
row's tenant equals the authenticated user; a chunk whose tenant_id
differs from the user is rejected, and every successfully inserted chunk
carries the inserting user's tenant id.  Nothing relates it to the
parent document's tenant. -/
theorem chunk_insert_policy_user_only :
    (∀ (u : Nat) (c : ChunkRow (List ℚ)) (st st' : StoreState),
      insertChunk u c st = some st' → c.tenantId = u) ∧
    (∀ (u : Nat) (c : ChunkRow (List ℚ)) (st : StoreState),
      c.tenantId ≠ u → insertChunk u c st = none) := by
  constructor
  · intro u c st st' hins
    unfold insertChunk at hins
    by_cases hcond : u = c.tenantId ∧ (∀ c0 ∈ st.chunks, c0.id ≠ c.id) ∧
        embeddingDimOk c = true ∧ fkOk c st = true
    · exact hcond.1.symm
    · rw [if_neg hcond] at hins
      exact absurd hins (by simp)
  · intro u c st hne
    unfold insertChunk
    rw [if_neg]
    intro hcond
    exact hne hcond.1.symm

/-- C8 counterexample: the storage layer does not maintain the invariant
that a chunk's tenant equals its parent document's tenant.  User 1 can
insert a chunk referencing tenant 0's document (the foreign key sees the
whole table and the insert policy checks only the chunk's own tenant),
producing a reachable state with a cross-tenant chunk. -/
theorem chunk_tenant_invariant_counterexample :
    ¬ (∀ ops, ∀ c ∈ (runOps ops).chunks, ∀ d ∈ (runOps ops).documents,
        c.documentId = some d.id → c.tenantId = d.tenantId) := by
  intro h
  have h10 := h [.insertDoc 0 ⟨10, 0, "d", 0⟩, .insertChk 1 ⟨20, some 10, 1, "x", none, 0⟩]
    ⟨20, some 10, 1, "x", none, 0⟩ (by decide) ⟨10, 0, "d", 0⟩ (by decide) (by decide)
  exact absurd h10 (by decide)

/-- A chunk inserted by user 3 with a null embedding. -/
def zChunk : ChunkRow (List ℚ) := ⟨9, none, 3, "z", none, 0⟩

/-- Witness for C8 (amended): a concrete successful chunk insert carries
the inserting user's tenant id. -/
theorem insertChunk_zChunk :
    insertChunk 3 zChunk StoreState.empty = some ⟨[], [zChunk]⟩ := by
  unfold insertChunk
  rw [if_pos]
  · rfl
  · refine ⟨rfl, ?_, ?_, ?_⟩
    · intro c0 hc0
      simp [StoreState.empty] at hc0
    · simp [embeddingDimOk, zChunk]
    · simp [fkOk, zChunk]

theorem chunk_insert_policy_user_only_witness :
    insertChunk 3 zChunk StoreState.empty = some ⟨[], [zChunk]⟩ ∧
    zChunk.tenantId = 3 :=
  ⟨insertChunk_zChunk,
    chunk_insert_policy_user_only.1 3 zChunk StoreState.empty
      ⟨[], [zChunk]⟩ insertChunk_zChunk⟩

/-- A chunk with a full-dimensional embedding for the C7 witness. -/
def dimChunk : ChunkRow (List ℚ) := ⟨30, none, 4, "e", some (List.replicate embeddingDim 0), 0⟩

/-- Witness for C7: inserting a chunk with a 1536-component embedding
succeeds, and the stored embedding has exactly the schema dimension. -/
theorem insertChunk_dimChunk :
    insertChunk 4 dimChunk StoreState.empty = some ⟨[], [dimChunk]⟩ := by
  unfold insertChunk
  rw [if_pos]
  · rfl
  · refine ⟨rfl, ?_, ?_, ?_⟩
    · intro c0 hc0
      simp [StoreState.empty] at hc0
    · simp [embeddingDimOk, dimChunk]
    · simp [fkOk, dimChunk]

theorem chunk_embedding_dimension_witness :
    insertChunk 4 dimChunk StoreState.empty = some ⟨[], [dimChunk]⟩ ∧
    dimChunk.embedding = some (List.replicate embeddingDim 0) ∧
    (List.replicate embeddingDim (0 : ℚ)).length = embeddingDim :=
  ⟨insertChunk_dimChunk, rfl,
    chunk_embedding_dimension.2.1 4 dimChunk StoreState.empty ⟨[], [dimChunk]⟩
      insertChunk_dimChunk (List.replicate embeddingDim 0) rfl⟩


/-! ## The demo chat streaming simulation (app/chat/page.tsx) -/

/-- One entry of the demo response's source list: excerpt content,
document and section metadata, and a similarity score. -/
structure DemoSource where
  content : String
  document : String
  docSection : String
  score : ℚ
deriving DecidableEq

/-- The assistant-message state written by one setMessages call of the
demo streaming path: the message text, its attached sources (none until
set), and the isStreaming flag. -/
structure MsgUpdate where
  content : String
  sources : Option (List DemoSource)
  isStreaming : Bool
deriving DecidableEq

/-- The sequence of assistant-message updates performed by
simulateStreaming, with words the result of answer.split(" "):
first the empty assistant message is appended with isStreaming set;
then the word loop writes one update per word carrying the cumulative
text (words joined by single spaces); finally one update clears
isStreaming and attaches the demo sources, leaving the content at the
full answer. -/
def simulateStreaming (words : List String) (sources : List DemoSource) :
    List MsgUpdate :=
  ⟨"", none, true⟩ ::
    (((List.range words.length).map fun i =>
      ⟨String.intercalate " " (words.take (i + 1)), none, true⟩) ++
     [⟨String.intercalate " " words, some sources, false⟩])

/-- C6 (amended): in the demo streaming simulation the content updates
come first, in generation order (cumulative word prefixes), every update
before the final one carries no sources and has the streaming flag set,
and the single final update attaches the sources and clears the
streaming flag; nothing follows it. -/
theorem simulateStreaming_event_order (words : List String) (sources : List DemoSource) :
    (simulateStreaming words sources).length = words.length + 2 ∧
    (simulateStreaming words sources).getLast? =
      some ⟨String.intercalate " " words, some sources, false⟩ ∧
    (∀ i, i + 1 < (simulateStreaming words sources).length →
      ∀ u, (simulateStreaming words sources)[i]? = some u →
        u.sources = none ∧ u.isStreaming = true) ∧
    (∀ i, i < words.length →
      (simulateStreaming words sources)[i + 1]? =
        some ⟨String.intercalate " " (words.take (i + 1)), none, true⟩) := by
  have hlen : (simulateStreaming words sources).length = words.length + 2 := by
    simp [simulateStreaming]
  refine ⟨hlen, ?_, ?_, ?_⟩
  · unfold simulateStreaming
    rw [← List.cons_append, List.getLast?_concat]
  · intro i hi u hu
    rw [hlen] at hi
    unfold simulateStreaming at hu
    cases i with
    | zero =>
      rw [List.getElem?_cons_zero] at hu
      have hux : u = ⟨"", none, true⟩ := by
        injection hu with h
        exact h.symm
      rw [hux]
      exact ⟨rfl, rfl⟩
    | succ j =>
      rw [List.getElem?_cons_succ] at hu
      have hj : j < words.length := by omega
      rw [List.getElem?_append_left
          (by simp only [List.length_map, List.length_range]; exact hj),
        List.getElem?_map, List.getElem?_range hj] at hu
      have hux : u = ⟨String.intercalate " " (words.take (j + 1)), none, true⟩ := by
        injection hu with h
        exact h.symm
      rw [hux]
      exact ⟨rfl, rfl⟩
  · intro i hi
    unfold simulateStreaming
    rw [List.getElem?_cons_succ, List.getElem?_append_left
        (by simp only [List.length_map, List.length_range]; exact hi),
      List.getElem?_map, List.getElem?_range hi]
    rfl

/-- C6 counterexample: the sources are not available before or during
content streaming.  With the two-word answer and any source list, the
second update already carries nonempty content while no update at or
before it holds any sources: the sources-first ordering fails. -/
theorem streaming_sources_first_counterexample :
    ¬ (∀ (words : List String) (sources : List DemoSource) (i : Nat) (u : MsgUpdate),
        (simulateStreaming words sources)[i]? = some u → u.content ≠ "" →
        ∃ j v, j ≤ i ∧ (simulateStreaming words sources)[j]? = some v ∧
          v.sources.isSome = true) := by
  intro h
  have h1 : (simulateStreaming ["hello", "world"] ([] : List DemoSource))[1]? =
      some ⟨"hello", none, true⟩ := rfl
  rcases h ["hello", "world"] [] 1 ⟨"hello", none, true⟩ h1 (by decide)
    with ⟨j, v, hj, hv, hsome⟩
  have hj01 : j = 0 ∨ j = 1 := by omega
  rcases hj01 with rfl | rfl
  · rw [show (simulateStreaming ["hello", "world"] ([] : List DemoSource))[0]? =
        some ⟨"", none, true⟩ from rfl] at hv
    injection hv with h0
    rw [← h0] at hsome
    simp at hsome
  · rw [h1] at hv
    injection hv with h0
    rw [← h0] at hsome
    simp at hsome

/-- Witness for C6 (amended): the event-order statement applied to the
concrete two-word answer with one source. -/
theorem simulateStreaming_event_order_witness :
    (1 : Nat) < (["hello", "world"] : List String).length ∧
    (simulateStreaming ["hello", "world"] [⟨"c", "d", "s", 9/10⟩])[1 + 1]? =
      some ⟨String.intercalate " " (["hello", "world"].take (1 + 1)), none, true⟩ :=
  ⟨by decide,
    (simulateStreaming_event_order ["hello", "world"] [⟨"c", "d", "s", 9/10⟩]).2.2.2
      1 (by decide)⟩

/-! ## The chat input submit handler (chat-input.tsx) -/

/-- The whitespace trim applied by the component (JS String.trim). -/
def jsTrim (s : String) : String :=
  String.mk (((s.data.dropWhile fun c => c.isWhitespace).reverse.dropWhile
    fun c => c.isWhitespace).reverse)

/-- handleSubmit of the chat input: when the trimmed input is empty or
the component is loading or disabled, nothing is sent and the input is
left as is; otherwise onSend receives the trimmed input and the input
state is reset to the empty string.  The first component is the message
passed to onSend (none when onSend is not called); the second is the
input state afterwards. -/
def handleSubmit (input : String) (isLoading disabled : Bool) :
    Option String × String :=
  if jsTrim input = "" ∨ isLoading = true ∨ disabled = true
  then (none, input)
  else (some (jsTrim input), "")

/-- C9: onSend is called exactly when the trimmed input is nonempty and
the component is neither loading nor disabled; when called it receives
the trimmed input and the input state resets to empty; a
whitespace-only input is never sent. -/
theorem chat_input_submit (input : String) (isLoading disabled : Bool) :
    ((handleSubmit input isLoading disabled).1 ≠ none ↔
      (jsTrim input ≠ "" ∧ isLoading = false ∧ disabled = false)) ∧
    (∀ m, (handleSubmit input isLoading disabled).1 = some m →
      m = jsTrim input ∧ (handleSubmit input isLoading disabled).2 = "") ∧
    (jsTrim input = "" → (handleSubmit input isLoading disabled).1 = none) := by
  by_cases h1 : jsTrim input = "" <;> by_cases h2 : isLoading = true <;>
    by_cases h3 : disabled = true <;>
    simp [handleSubmit, h1, h2, h3, Bool.not_eq_true] at *

/-- Witness for C9: submitting with padded text while idle sends the
trimmed text and clears the input. -/
theorem chat_input_submit_witness :
    (handleSubmit "  hi  " false false).1 = some "hi" ∧
    ("hi" = jsTrim "  hi  " ∧ (handleSubmit "  hi  " false false).2 = "") :=
  ⟨rfl, (chat_input_submit "  hi  " false false).2.1 "hi" rfl⟩

/-! ## The SSE client stream parser (streamResponse of the API client)

The generator's yields are JSON values when JSON.parse succeeds and the
raw payload string otherwise; the JSON parser is kept abstract as a
function parse into an arbitrary result type J. -/

/-- A yielded payload: JSON-parsed when possible, the raw string
otherwise. -/
def payloadOf (parse : String → Option J) (data : String) : J ⊕ String :=
  match parse data with
  | some j => Sum.inl j
  | none => Sum.inr data

/-- The inner for-loop of streamResponse over the completed lines of one
read: lines lacking the data prefix are skipped; a payload [DONE]
returns from the generator (second component true); otherwise the
payload is yielded.  The 6-character slice removes exactly the prefix
"data: ". -/
def processLines (parse : String → Option J) : List String → List (J ⊕ String) × Bool
  | [] => ([], false)
  | line :: rest =>
    if line.startsWith "data: " then
      let data := line.drop 6
      if data = "[DONE]" then ([], true)
      else
        let r := processLines parse rest
        (payloadOf parse data :: r.1, r.2)
    else processLines parse rest

/-- The outer read-loop of streamResponse: each decoded chunk is
appended to the carried buffer, the buffer is split on newlines, the
last (incomplete) piece becomes the new buffer, and the complete lines
are processed; a [DONE] returns from the whole generator.  When the
source reports done, the remaining buffer is discarded. -/
def streamResponse (parse : String → Option J) (buffer : String) :
    List String → List (J ⊕ String)
  | [] => []
  | chunk :: rest =>
    let pieces := (buffer ++ chunk).splitOn "\n"
    let r := processLines parse pieces.dropLast
    if r.2 then r.1
    else r.1 ++ streamResponse parse (pieces.getLast?.getD "") rest

/-- The complete lines the buffering exposes across all reads: the
newline-terminated pieces, with the trailing incomplete piece carried
into the next read and dropped at the end of the stream. -/
def completeLines (buffer : String) : List String → List String
  | [] => []
  | chunk :: rest =>
    let pieces := (buffer ++ chunk).splitOn "\n"
    pieces.dropLast ++ completeLines (pieces.getLast?.getD "") rest

/-- Whether some complete line carries the [DONE] payload. -/
def hasDoneLine (lines : List String) : Bool :=
  lines.any fun l => l.startsWith "data: " && (l.drop 6 == "[DONE]")

/-- The payloads the claim describes, written from its words: take the
lines that begin with "data: ", strip that prefix, stop (exclusively)
at the first [DONE], and JSON-parse each payload when possible. -/
def ssePayloads (parse : String → Option J) (lines : List String) :
    List (J ⊕ String) :=
  (((lines.filter fun l => l.startsWith "data: ").map fun l => l.drop 6).takeWhile
    fun d => !(d == "[DONE]")).map (payloadOf parse)

theorem processLines_eq (parse : String → Option J) (lines : List String) :
    processLines parse lines = (ssePayloads parse lines, hasDoneLine lines) := by
  induction lines with
  | nil => rfl
  | cons line rest ih =>
    by_cases hstart : line.startsWith "data: "
    · by_cases hdone : line.drop 6 = "[DONE]"
      · simp [processLines, ssePayloads, hasDoneLine, hstart, hdone]
      · simp [processLines, ssePayloads, hasDoneLine, hstart, hdone, ih]
    · simp [processLines, ssePayloads, hasDoneLine, hstart, ih]

theorem ssePayloads_append_of_done (parse : String → Option J)
    (lines more : List String) (h : hasDoneLine lines = true) :
    ssePayloads parse (lines ++ more) = ssePayloads parse lines := by
  induction lines with
  | nil => simp [hasDoneLine] at h
  | cons line rest ih =>
    by_cases hstart : line.startsWith "data: "
    · by_cases hdone : line.drop 6 = "[DONE]"
      · simp [ssePayloads, hstart, hdone]
      · have hrest : hasDoneLine rest = true := by
          simp [hasDoneLine, hstart, hdone] at h
          simpa [hasDoneLine] using h
        simp [ssePayloads, hstart, hdone]
        simpa [ssePayloads] using ih hrest
    · have hrest : hasDoneLine rest = true := by
        simp [hasDoneLine, hstart] at h
        simpa [hasDoneLine] using h
      simp [ssePayloads, hstart]
      simpa [ssePayloads] using ih hrest

theorem ssePayloads_append_of_not_done (parse : String → Option J)
    (lines more : List String) (h : hasDoneLine lines = false) :
    ssePayloads parse (lines ++ more) =
      ssePayloads parse lines ++ ssePayloads parse more := by
  induction lines with
  | nil => simp [ssePayloads]
  | cons line rest ih =>
    by_cases hstart : line.startsWith "data: "
    · have hdone : ¬ (line.drop 6 = "[DONE]") := by
        intro hd
        simp [hasDoneLine, hstart, hd] at h
      have hrest : hasDoneLine rest = false := by
        simp [hasDoneLine, hstart, hdone] at h
        simpa [hasDoneLine] using h
      simp [ssePayloads, hstart, hdone]
      simpa [ssePayloads] using ih hrest
    · have hrest : hasDoneLine rest = false := by
        simp [hasDoneLine, hstart] at h
        simpa [hasDoneLine] using h
      simp [ssePayloads, hstart]
      simpa [ssePayloads] using ih hrest

theorem streamResponse_eq_ssePayloads (parse : String → Option J)
    (buffer : String) (chunks : List String) :
    streamResponse parse buffer chunks =
      ssePayloads parse (completeLines buffer chunks) := by
  induction chunks generalizing buffer with
  | nil => rfl
  | cons chunk rest ih =>
    unfold streamResponse completeLines
    dsimp only
    rw [processLines_eq]
    by_cases hd : hasDoneLine ((buffer ++ chunk).splitOn "\n").dropLast
    · rw [if_pos (by simpa using hd)]
      rw [ssePayloads_append_of_done _ _ _ hd]
    · rw [if_neg (by simpa using hd)]
      rw [ssePayloads_append_of_not_done _ _ _ (by simpa using hd), ih]

/-- C10: starting from the empty buffer, the SSE stream parser yields
exactly the payloads of the complete lines that begin with "data: ", in
input order, each JSON-parsed when possible and yielded raw otherwise;
lines without the prefix are ignored, and a [DONE] payload terminates
the generator without being yielded. -/
theorem streamResponse_yields_data_payloads (parse : String → Option J)
    (chunks : List String) :
    streamResponse parse "" chunks = ssePayloads parse (completeLines "" chunks) :=
  streamResponse_eq_ssePayloads parse "" chunks

end AIForge
